import Mathlib

/-!
Verification of the `swc-plugin-use-prompt` transform engine (`src/lib.rs`).

The engine replaces the body of a function whose leading statement is a
string literal of the form `"use prompt: <text>"` with a generated code
fragment looked up in a substitution cache keyed by the source span of the
function and the prompt text.  Imports declared by a substitution are renamed
with a per-call-site hygiene prefix and appended to the module, and a
leading `"use client"` directive plus a default `React` import are ensured
at module exit.

The development below is a shallow embedding of that Rust code.  The swc
AST is modelled by a small inductive family covering the node kinds the
engine inspects; the external parser (`parse_file_as_module`) and the JSON
deserializer (`serde_json::from_str`) are modelled as function parameters,
since their code lives outside this repository.  Rust byte-string
operations (`starts_with`, slicing, `trim`) are modelled on the character
list underlying a Lean `String`; on the ASCII data handled by the engine
the two coincide.  Panics (`unwrap` on unexpected shapes, `expect` on a
malformed cache) are modelled by an `Option` layer: `none` is an aborted
pass.
-/

namespace UsePrompt

/-- A half-open byte-offset interval identifying a node in the source. -/
structure Span where
  lo : Nat
  hi : Nat
deriving DecidableEq

/-- The literals the engine inspects: string literals, and anything else. -/
inductive Lit
  | str (value : String)
  | other
deriving DecidableEq

mutual
/-- Expression nodes, covering the kinds the visitor distinguishes:
literals, identifiers, `new` expressions (used by the error bodies),
function expressions, arrow functions, classes carrying methods, and
object literals carrying methods.  Function-like nodes carry the
body of the `Function`, an optional statement block. -/
inductive Expr
  | lit (l : Lit)
  | ident (sym : String)
  | newExpr (callee : Expr) (args : List Expr)
  | fnExpr (span : Span) (body : Option (List Stmt))
  | arrow (span : Span) (body : List Stmt)
  | classExpr (methods : List (Option (List Stmt)))
  | objectLit (methods : List (Option (List Stmt)))

/-- Statement nodes: expression statements, `throw`, `return`, function
declarations, and the empty statement. -/
inductive Stmt
  | expr (e : Expr)
  | throwStmt (e : Expr)
  | ret (e : Option Expr)
  | fnDecl (span : Span) (body : Option (List Stmt))
  | emptyStmt
end

/-- A function body: `Function { body: Option<BlockStmt> }`. -/
abbrev Fn := Option (List Stmt)

/-- An import specifier: `ImportSpecifier::Named`, `::Default`, `::Namespace`.
A named specifier carries the local binding name and the optional external
exported name (`imported`). -/
inductive ImportSpecifier
  | named (localName : String) (imported : Option String)
  | defaultSpecifier (localName : String)
  | namespaceSpecifier (localName : String)
deriving DecidableEq

/-- An import declaration: its specifiers and the source module string. -/
structure ImportDecl where
  specifiers : List ImportSpecifier
  src : String
deriving DecidableEq

/-- A module item: a statement or an import declaration. -/
inductive ModuleItem
  | stmt (s : Stmt)
  | importDecl (d : ImportDecl)

/-- A module: its list of items. -/
structure Module where
  body : List ModuleItem

/-- Rust `type IdentMap = HashMap<Atom, Atom>`, modelled as an association list;
`insert` conses in front, so a lookup sees the most recent binding exactly
as a `HashMap` insert-then-get does. -/
abbrev IdentMap := List (String × String)

def insertIM (key value : String) (m : IdentMap) : IdentMap := (key, value) :: m

def lookupIM (key : String) (m : IdentMap) : Option String := List.lookup key m

/-- A cache entry: `struct Substitution { code, imports }`. -/
structure Substitution where
  code : String
  imports : Option String
deriving DecidableEq

/-- Rust `type SubstitutionMap = HashMap<String, HashMap<String, HashMap<String,
Substitution>>>`, modelled as nested association lists. -/
abbrev SubstitutionMap := List (String × List (String × List (String × Substitution)))

/-- The three-level lookup performed in `transform_fn_body`:
`substitutions.get(lo).and_then(|m| m.get(hi)).and_then(|m| m.get(prompt))`. -/
def lookup3 (subs : SubstitutionMap) (lo hi prompt : String) : Option Substitution :=
  match List.lookup lo subs with
  | some m1 =>
    match List.lookup hi m1 with
    | some m2 => List.lookup prompt m2
    | none => none
  | none => none

/-- The external swc parser (`make_module_from_source`): source text in,
parsed module or a syntax diagnostic out.  It is a parameter of the
development because its code lives outside this repository. -/
abbrev Parser := String → Except String Module

/-! ### String primitives

Rust `&str` operations modelled on the character list of a Lean `String`. -/

/-- Rust `s.starts_with("use prompt:")`. -/
def startsWithUsePrompt (s : String) : Bool := List.isPrefixOf "use prompt:".data s.data

/-- Rust `&s[n..]` for an ASCII-safe cut position: drop the first `n` characters. -/
def dropChars (n : Nat) (s : String) : String := ⟨s.data.drop n⟩

/-- Rust `s.trim()`: remove leading and trailing whitespace. -/
def trimmed (s : String) : String :=
  ⟨((s.data.dropWhile Char.isWhitespace).reverse.dropWhile Char.isWhitespace).reverse⟩

/-! ### Decimal rendering

`format!("{n}")` / `n.to_string()` on an unsigned integer: decimal digits,
most significant first.  Written with a structural fuel argument (the
number itself bounds the digit count) so that it evaluates by reduction. -/

def decAux : Nat → Nat → List Char → List Char
  | 0, _, acc => acc
  | fuel+1, n, acc =>
    if n < 10 then Char.ofNat (48 + n % 10) :: acc
    else decAux fuel (n / 10) (Char.ofNat (48 + n % 10) :: acc)

def decimal (n : Nat) : String := ⟨decAux (n+1) n []⟩

/-! ### Error Body Synthesizer -/

/-- The function `make_prompt_error_body`: a single-statement block throwing
`new Error(msg)`. -/
def make_prompt_error_body (msg : String) : Option (List Stmt) :=
  some [Stmt.throwStmt (Expr.newExpr (Expr.ident "Error") [Expr.lit (Lit.str msg)])]

/-! ### Directive Scanner -/

/-- The string value of a bare string-literal expression statement. -/
def litStrOf : Stmt → Option String
  | .expr (.lit (.str s)) => some s
  | _ => none

/-- The directive prologue (`map_while` in `transform_fn_body`): the maximal
leading run of bare string-literal expression statements, as their values. -/
def prologue : List Stmt → List String
  | [] => []
  | s :: rest =>
    match litStrOf s with
    | some v => v :: prologue rest
    | none => []

/-- The prompt scan (`filter_map ... .next()` in `transform_fn_body`): the
first prologue literal starting with `use prompt:`; `Err 1` when its
remainder trims to empty, `Ok remainder` otherwise, `none` when no literal
matches. -/
def scanPrompt : List String → Option (Except Nat String)
  | [] => none
  | s :: rest =>
    if startsWithUsePrompt s then
      let p := trimmed (dropChars 11 s)
      if p = "" then some (Except.error 1) else some (Except.ok p)
    else scanPrompt rest

/-! ### Hygiene Renamer -/

mutual
/-- The visitor `RenameIdentVisitor` on an expression: replace every identifier whose
name is a key of the map by its image. -/
def renameExpr (m : IdentMap) : Expr → Expr
  | .lit l => .lit l
  | .ident s =>
    match lookupIM s m with
    | some r => .ident r
    | none => .ident s
  | .newExpr c args => .newExpr (renameExpr m c) (renameExprs m args)
  | .fnExpr sp b => .fnExpr sp (renameOptBody m b)
  | .arrow sp b => .arrow sp (renameStmts m b)
  | .classExpr ms => .classExpr (renameMethods m ms)
  | .objectLit ms => .objectLit (renameMethods m ms)

def renameExprs (m : IdentMap) : List Expr → List Expr
  | [] => []
  | e :: es => renameExpr m e :: renameExprs m es

def renameStmt (m : IdentMap) : Stmt → Stmt
  | .expr e => .expr (renameExpr m e)
  | .throwStmt e => .throwStmt (renameExpr m e)
  | .ret none => .ret none
  | .ret (some e) => .ret (some (renameExpr m e))
  | .fnDecl sp b => .fnDecl sp (renameOptBody m b)
  | .emptyStmt => .emptyStmt

def renameStmts (m : IdentMap) : List Stmt → List Stmt
  | [] => []
  | s :: ss => renameStmt m s :: renameStmts m ss

def renameOptBody (m : IdentMap) : Option (List Stmt) → Option (List Stmt)
  | none => none
  | some ss => some (renameStmts m ss)

def renameMethods (m : IdentMap) : List (Option (List Stmt)) → List (Option (List Stmt))
  | [] => []
  | b :: bs => renameOptBody m b :: renameMethods m bs
end

/-- The visitor `RenameImportsVisitor` on one specifier: the local name is prefixed and
recorded in the map; for a named specifier the `imported` field is set to
the original local name. -/
def renameSpecifier (pfx : String) (m : IdentMap) :
    ImportSpecifier → IdentMap × ImportSpecifier
  | .named localName _imported =>
    let pfxed := pfx ++ localName
    (insertIM localName pfxed m, .named pfxed (some localName))
  | .defaultSpecifier localName =>
    let pfxed := pfx ++ localName
    (insertIM localName pfxed m, .defaultSpecifier pfxed)
  | .namespaceSpecifier localName =>
    let pfxed := pfx ++ localName
    (insertIM localName pfxed m, .namespaceSpecifier pfxed)

/-- The visitor `RenameImportsVisitor` over a specifier list, threading the map. -/
def renameSpecifiers (pfx : String) (m : IdentMap) :
    List ImportSpecifier → IdentMap × List ImportSpecifier
  | [] => (m, [])
  | s :: rest =>
    let (m1, s') := renameSpecifier pfx m s
    let (m2, rest') := renameSpecifiers pfx m1 rest
    (m2, s' :: rest')

/-- The visitor `RenameImportsVisitor` over module items: only import declarations are
rewritten; the shared map accumulates across all of them. -/
def renameImportsItems (pfx : String) (m : IdentMap) :
    List ModuleItem → IdentMap × List ModuleItem
  | [] => (m, [])
  | .importDecl d :: rest =>
    let (m1, specs') := renameSpecifiers pfx m d.specifiers
    let (m2, rest') := renameImportsItems pfx m1 rest
    (m2, .importDecl ⟨specs', d.src⟩ :: rest')
  | .stmt s :: rest =>
    let (m1, rest') := renameImportsItems pfx m rest
    (m1, .stmt s :: rest')

/-- The function `make_imports_from_source`: parse the imports source, rename every
imported binding with the hygiene prefix, return the rewritten items and
the accumulated map. -/
def make_imports_from_source (P : Parser) (source : String) (pfx : String) :
    Except String (List ModuleItem × IdentMap) :=
  match P source with
  | .error e => .error e
  | .ok ast =>
    let (m, items) := renameImportsItems pfx [] ast.body
    .ok (items, m)

/-! ### Fragment Parser -/

/-- The function `make_block_stmt_from_source`: wrap the source in a synthetic function
declaration, parse it, extract the declaration from the first module item
(the chain of `unwrap`s: `none` models the panic on an unexpected shape),
rename identifiers, and return the body of the function. -/
def make_block_stmt_from_source (P : Parser) (source : String) (m : IdentMap) :
    Option (Except String (List Stmt)) :=
  match P ("function wrapped() \x7b " ++ source ++ " \x7d") with
  | .error e => some (.error e)
  | .ok ast =>
    match ast.body.head? with
    | some (.stmt (.fnDecl _ b)) =>
      match renameOptBody m b with
      | some body => some (.ok body)
      | none => none
    | _ => none

/-! ### Transform Orchestrator -/

/-- The visitor state: the substitution store, the accumulated import items
for the current module, and the visit counter. -/
structure VState where
  substitutions : SubstitutionMap
  imports : List ModuleItem
  visited : Nat

/-- The per-call-site hygiene prefix
`format!("__swcPluginUsePromptImport__{visit_index}_")`. -/
def hygienePfx (visit_index : Nat) : String :=
  "__swcPluginUsePromptImport__" ++ decimal visit_index ++ "_"

/-- The tail of `transform_fn_body`: parse the code of the substitution with the
ident map and install it as the new body, or install the diagnostic body on
a parse failure; `none` models the panic inside
`make_block_stmt_from_source`. -/
def install_code (P : Parser) (st : VState) (code : String) (identMap : IdentMap) :
    Option (VState × Fn) :=
  match make_block_stmt_from_source P code identMap with
  | none => none
  | some (.ok body) => some (st, some body)
  | some (.error _) =>
    some (st, make_prompt_error_body "🤖 Guess ChatGPT isn\x27t great at writing code...")

/-- The method `SubstitutionVisitor::transform_fn_body`: scan the directive prologue,
look the prompt up by span and text, and replace the body accordingly. -/
def transform_fn_body (P : Parser) (st : VState) (func : Fn) (span : Span) :
    Option (VState × Fn) :=
  match func with
  | none => some (st, none)
  | some stmts =>
    if stmts.isEmpty then some (st, some stmts)
    else
      match scanPrompt (prologue stmts) with
      | none => some (st, some stmts)
      | some (.error _) => some (st, make_prompt_error_body "🤖 Incomplete prompt!")
      | some (.ok prompt) =>
        let visit_index := st.visited
        let st1 : VState := ⟨st.substitutions, st.imports, st.visited + 1⟩
        match lookup3 st1.substitutions (decimal span.lo) (decimal span.hi) prompt with
        | none => some (st1, some stmts)
        | some subst =>
          match subst.imports with
          | some importsSource =>
            match make_imports_from_source P importsSource (hygienePfx visit_index) with
            | .ok (newImports, identMap) =>
              install_code P ⟨st1.substitutions, st1.imports ++ newImports, st1.visited⟩
                subst.code identMap
            | .error e =>
              some (st1, make_prompt_error_body ("uh oh: " ++ e))
          | none => install_code P st1 subst.code []

mutual
/-- The depth-first visit on expressions: children first, then
`transform_fn_body` on function-expression nodes only. -/
def visitExpr (P : Parser) (st : VState) : Expr → Option (VState × Expr)
  | .lit l => some (st, .lit l)
  | .ident s => some (st, .ident s)
  | .newExpr c args =>
    match visitExpr P st c with
    | none => none
    | some (st1, c') =>
      match visitExprs P st1 args with
      | none => none
      | some (st2, args') => some (st2, .newExpr c' args')
  | .fnExpr sp b =>
    match visitOptBody P st b with
    | none => none
    | some (st1, b1) =>
      match transform_fn_body P st1 b1 sp with
      | none => none
      | some (st2, b2) => some (st2, .fnExpr sp b2)
  | .arrow sp b =>
    match visitStmts P st b with
    | none => none
    | some (st1, b1) => some (st1, .arrow sp b1)
  | .classExpr ms =>
    match visitMethods P st ms with
    | none => none
    | some (st1, ms1) => some (st1, .classExpr ms1)
  | .objectLit ms =>
    match visitMethods P st ms with
    | none => none
    | some (st1, ms1) => some (st1, .objectLit ms1)

def visitExprs (P : Parser) (st : VState) : List Expr → Option (VState × List Expr)
  | [] => some (st, [])
  | e :: es =>
    match visitExpr P st e with
    | none => none
    | some (st1, e') =>
      match visitExprs P st1 es with
      | none => none
      | some (st2, es') => some (st2, e' :: es')

/-- The depth-first visit on statements: children first, then
`transform_fn_body` on function-declaration nodes only. -/
def visitStmt (P : Parser) (st : VState) : Stmt → Option (VState × Stmt)
  | .expr e =>
    match visitExpr P st e with
    | none => none
    | some (st1, e') => some (st1, .expr e')
  | .throwStmt e =>
    match visitExpr P st e with
    | none => none
    | some (st1, e') => some (st1, .throwStmt e')
  | .ret none => some (st, .ret none)
  | .ret (some e) =>
    match visitExpr P st e with
    | none => none
    | some (st1, e') => some (st1, .ret (some e'))
  | .fnDecl sp b =>
    match visitOptBody P st b with
    | none => none
    | some (st1, b1) =>
      match transform_fn_body P st1 b1 sp with
      | none => none
      | some (st2, b2) => some (st2, .fnDecl sp b2)
  | .emptyStmt => some (st, .emptyStmt)

def visitStmts (P : Parser) (st : VState) : List Stmt → Option (VState × List Stmt)
  | [] => some (st, [])
  | s :: ss =>
    match visitStmt P st s with
    | none => none
    | some (st1, s') =>
      match visitStmts P st1 ss with
      | none => none
      | some (st2, ss') => some (st2, s' :: ss')

def visitOptBody (P : Parser) (st : VState) :
    Option (List Stmt) → Option (VState × Option (List Stmt))
  | none => some (st, none)
  | some ss =>
    match visitStmts P st ss with
    | none => none
    | some (st1, ss') => some (st1, some ss')

def visitMethods (P : Parser) (st : VState) :
    List (Option (List Stmt)) → Option (VState × List (Option (List Stmt)))
  | [] => some (st, [])
  | b :: bs =>
    match visitOptBody P st b with
    | none => none
    | some (st1, b') =>
      match visitMethods P st1 bs with
      | none => none
      | some (st2, bs') => some (st2, b' :: bs')
end

/-- The children visit of `visit_mut_module`: statements are visited, and
declarations of imports are traversed without change. -/
def visitModuleItems (P : Parser) (st : VState) :
    List ModuleItem → Option (VState × List ModuleItem)
  | [] => some (st, [])
  | .stmt s :: rest =>
    match visitStmt P st s with
    | none => none
    | some (st1, s') =>
      match visitModuleItems P st1 rest with
      | none => none
      | some (st2, rest') => some (st2, .stmt s' :: rest')
  | .importDecl d :: rest =>
    match visitModuleItems P st rest with
    | none => none
    | some (st1, rest') => some (st1, .importDecl d :: rest')

/-- Is a module item a bare `"use client"` string-literal statement? -/
def isClientDirective : ModuleItem → Bool
  | .stmt (.expr (.lit (.str s))) => s = "use client"
  | _ => false

/-- The `has_client_directive` search in `visit_mut_module`. -/
def hasClientDirective (body : List ModuleItem) : Bool := body.any isClientDirective

/-- The `"use client"` directive statement inserted at index 0. -/
def clientDirectiveItem : ModuleItem := .stmt (.expr (.lit (.str "use client")))

/-- The module-exit step of `SubstitutionVisitor::visit_mut_module`: if the
visit counter is positive, ensure a leading `"use client"` directive; then
append the accumulated imports. -/
def finalizeModuleBody (visited : Nat) (imports : List ModuleItem)
    (body : List ModuleItem) : List ModuleItem :=
  let b :=
    if visited > 0 then
      if hasClientDirective body then body else clientDirectiveItem :: body
    else body
  b ++ imports

/-- The method `SubstitutionVisitor::visit_mut_module`: children first, then the
module-exit step. -/
def SubstitutionVisitor.visit_mut_module (P : Parser) (st : VState) (m : Module) :
    Option (VState × Module) :=
  match visitModuleItems P st m.body with
  | none => none
  | some (st1, body1) => some (st1, ⟨finalizeModuleBody st1.visited st1.imports body1⟩)

/-! ### FixImportsVisitor -/

/-- The local binding name of an import specifier. -/
def specifierLocalName : ImportSpecifier → String
  | .named localName _ => localName
  | .defaultSpecifier localName => localName
  | .namespaceSpecifier localName => localName

/-- The `has_react` flag accumulation of `FixImportsVisitor`: set when any
specifier of any import declaration binds the local name `React`. -/
def collectReact (flag : Bool) : List ModuleItem → Bool
  | [] => flag
  | .importDecl d :: rest =>
    collectReact (flag || d.specifiers.any (fun s => specifierLocalName s == "React")) rest
  | .stmt _ :: rest => collectReact flag rest

/-- The default framework import `import React from \x27react\x27` pushed by
`FixImportsVisitor`. -/
def reactImport : ModuleItem := .importDecl ⟨[.defaultSpecifier "React"], "react"⟩

/-- The method `FixImportsVisitor::visit_mut_module`: traverse the module collecting
the `has_react` flag, then push the default import when the flag is unset. -/
def fixImports (m : Module) : Module :=
  if collectReact false m.body then m else ⟨m.body ++ [reactImport]⟩

/-! ### Store construction and the whole pass -/

/-- The JSON deserializer `serde_json::from_str::<SubstitutionMap>`,
modelled as a parameter (its code lives outside this repository): `none` is
a deserialization failure. -/
abbrev JsonDecoder := String → Option SubstitutionMap

/-- The initial visitor state over a store. -/
def initState (subs : SubstitutionMap) : VState := ⟨subs, [], 0⟩

/-- The constructor `SubstitutionVisitor::new`: read the cache file, an absent file standing
in for the empty JSON object; deserialize, a failure (`expect`) aborting the
pass (`none`). -/
def SubstitutionVisitor.new (decode : JsonDecoder) (cacheFile : Option String) :
    Option VState :=
  let contents := cacheFile.getD "\x7b\x7d"
  match decode contents with
  | none => none
  | some subs => some (initState subs)

/-- The entry point `process_transform`: run the substitution visitor, then the fix-imports
visitor. -/
def process_transform (P : Parser) (decode : JsonDecoder)
    (cacheFile : Option String) (program : Module) : Option Module :=
  match SubstitutionVisitor.new decode cacheFile with
  | none => none
  | some st0 =>
    match SubstitutionVisitor.visit_mut_module P st0 program with
    | none => none
    | some (_, m1) => some (fixImports m1)

/-! ### Derived observation functions used by the statements -/

/-- The numeric value of a big-endian digit character list. -/
def decVal (l : List Char) : Nat := l.foldl (fun a c => a * 10 + (c.toNat - 48)) 0

/-- Does the prompt scan of this function body succeed with a valid,
non-empty prompt?  (The condition under which `transform_fn_body` bumps the
visit counter.) -/
def scanOkFn (b : Fn) : Bool :=
  match b with
  | none => false
  | some stmts =>
    if stmts.isEmpty then false
    else
      match scanPrompt (prologue stmts) with
      | some (.ok _) => true
      | _ => false

mutual
/-- How many function nodes inside this expression carry a valid prompt
directive (the node itself included for function expressions). -/
def promptCountE : Expr → Nat
  | .lit _ => 0
  | .ident _ => 0
  | .newExpr c args => promptCountE c + promptCountEs args
  | .fnExpr _ b => promptCountOB b + (if scanOkFn b then 1 else 0)
  | .arrow _ b => promptCountSs b
  | .classExpr ms => promptCountMs ms
  | .objectLit ms => promptCountMs ms

def promptCountEs : List Expr → Nat
  | [] => 0
  | e :: es => promptCountE e + promptCountEs es

/-- How many function nodes inside this statement carry a valid prompt
directive (the node itself included for function declarations). -/
def promptCountS : Stmt → Nat
  | .expr e => promptCountE e
  | .throwStmt e => promptCountE e
  | .ret none => 0
  | .ret (some e) => promptCountE e
  | .fnDecl _ b => promptCountOB b + (if scanOkFn b then 1 else 0)
  | .emptyStmt => 0

def promptCountSs : List Stmt → Nat
  | [] => 0
  | s :: ss => promptCountS s + promptCountSs ss

def promptCountOB : Option (List Stmt) → Nat
  | none => 0
  | some ss => promptCountSs ss

def promptCountMs : List (Option (List Stmt)) → Nat
  | [] => 0
  | b :: bs => promptCountOB b + promptCountMs bs
end

/-- How many function nodes in the module carry a valid prompt directive. -/
def promptCountItems : List ModuleItem → Nat
  | [] => 0
  | .stmt s :: rest => promptCountS s + promptCountItems rest
  | .importDecl _ :: rest => promptCountItems rest

mutual
/-- No function declaration or function expression anywhere inside. -/
def fnFreeE : Expr → Bool
  | .lit _ => true
  | .ident _ => true
  | .newExpr c args => fnFreeE c && fnFreeEs args
  | .fnExpr _ _ => false
  | .arrow _ b => fnFreeSs b
  | .classExpr ms => fnFreeMs ms
  | .objectLit ms => fnFreeMs ms

def fnFreeEs : List Expr → Bool
  | [] => true
  | e :: es => fnFreeE e && fnFreeEs es

def fnFreeS : Stmt → Bool
  | .expr e => fnFreeE e
  | .throwStmt e => fnFreeE e
  | .ret none => true
  | .ret (some e) => fnFreeE e
  | .fnDecl _ _ => false
  | .emptyStmt => true

def fnFreeSs : List Stmt → Bool
  | [] => true
  | s :: ss => fnFreeS s && fnFreeSs ss

def fnFreeOB : Option (List Stmt) → Bool
  | none => true
  | some ss => fnFreeSs ss

def fnFreeMs : List (Option (List Stmt)) → Bool
  | [] => true
  | b :: bs => fnFreeOB b && fnFreeMs bs
end

/-- The per-specifier image of the import renamer, with the accumulated map
projected away. -/
def renameSpecPure (pfx : String) : ImportSpecifier → ImportSpecifier
  | .named localName _ => .named (pfx ++ localName) (some localName)
  | .defaultSpecifier localName => .defaultSpecifier (pfx ++ localName)
  | .namespaceSpecifier localName => .namespaceSpecifier (pfx ++ localName)

/-- All local binding names of the import declarations among the items. -/
def importLocalNames : List ModuleItem → List String
  | [] => []
  | .importDecl d :: rest => d.specifiers.map specifierLocalName ++ importLocalNames rest
  | .stmt _ :: rest => importLocalNames rest

/-- The local names produced by one Hygiene Renamer call with the prefix
derived from visit-counter value `i`. -/
def renamedLocalNames (i : Nat) (items : List ModuleItem) : List String :=
  importLocalNames (renameImportsItems (hygienePfx i) [] items).2

/-- The string-literal view of a module item (for directive bookkeeping). -/
def itemLitStr : ModuleItem → Option String
  | .stmt s => litStrOf s
  | .importDecl _ => none

/-- Does the module body contain a default import binding the local name
`React`?  (The condition the specification attributes to the import fix.) -/
def hasReactDefaultImport (body : List ModuleItem) : Bool :=
  body.any fun item =>
    match item with
    | .importDecl d =>
      d.specifiers.any fun s =>
        match s with
        | .defaultSpecifier localName => localName == "React"
        | _ => false
    | .stmt _ => false


/-- The string-literal view of an expression. -/
def exprLitStr : Expr → Option String
  | .lit (.str s) => some s
  | _ => none

/-- The prologue computed on the string-literal view of the statements. -/
def prologueView : List (Option String) → List String
  | [] => []
  | some v :: rest => v :: prologueView rest
  | none :: _ => []

/-- The scan outcome computed on the string-literal view of the body. -/
def scanOkView : Option (List (Option String)) → Bool
  | none => false
  | some l =>
    if l.isEmpty then false
    else
      match scanPrompt (prologueView l) with
      | some (.ok _) => true
      | _ => false


/-- Does this item bind the local name `React` through any import specifier
(of any kind)? -/
def itemHasReactBinding : ModuleItem → Bool
  | .importDecl d => d.specifiers.any (fun s => specifierLocalName s == "React")
  | .stmt _ => false


/-- A parser stub used for concrete instances: every input is a syntax
error.  (No concrete instance below exercises a successful parse.) -/
def trivialParser : Parser := fun _ => .error "unsupported"

/-- A JSON decoder stub recognizing exactly the empty object. -/
def decodeEmptyOnly : JsonDecoder := fun s => if s = "\x7b\x7d" then some [] else none

/-- Fixture: a valid prompt directive statement. -/
def dirStmtHi : Stmt := .expr (.lit (.str "use prompt: hi"))

/-- Fixture: a prompt directive statement whose text is empty after the
prefix. -/
def emptyDirStmt : Stmt := .expr (.lit (.str "use prompt: "))

/-- Fixture: a store with one entry at span `(3,7)` for prompt `hi`. -/
def cexStore : SubstitutionMap := [("3", [("7", [("hi", ⟨"x", none⟩)])])]

/-! ### Lemmas about decimal rendering -/

theorem data_append (s t : String) : (s ++ t).data = s.data ++ t.data := by
  cases s; cases t; rfl

theorem string_ext {s t : String} (h : s.data = t.data) : s = t := by
  cases s; cases t; exact congrArg String.mk h

theorem decAux_append (fuel : Nat) :
    ∀ n acc, decAux fuel n acc = decAux fuel n [] ++ acc := by
  induction fuel with
  | zero => intro n acc; simp [decAux]
  | succ f ih =>
    intro n acc
    by_cases h : n < 10
    · simp [decAux, h]
    · simp only [decAux, if_neg h]
      rw [ih (n / 10) (Char.ofNat (48 + n % 10) :: acc),
        ih (n / 10) [Char.ofNat (48 + n % 10)]]
      simp

theorem digit_toNat : ∀ d : Nat, d < 10 → (Char.ofNat (48 + d)).toNat = 48 + d := by decide

theorem decAux_val (fuel : Nat) : ∀ n, n < fuel → decVal (decAux fuel n []) = n := by
  induction fuel with
  | zero => intro n h; exact absurd h (Nat.not_lt_zero n)
  | succ f ih =>
    intro n h
    by_cases h10 : n < 10
    · have hm : n % 10 = n := Nat.mod_eq_of_lt h10
      simp only [decAux, if_pos h10, decVal, List.foldl, hm]
      rw [digit_toNat n h10]
      omega
    · have hpos : 0 < n := by omega
      have hdivf : n / 10 < f := by
        have hdiv : n / 10 < n := Nat.div_lt_self hpos (by omega)
        omega
      simp only [decAux, if_neg h10]
      rw [decAux_append]
      simp only [decVal, List.foldl_append]
      have hval := ih (n / 10) hdivf
      simp only [decVal] at hval
      rw [hval]
      simp only [List.foldl]
      rw [digit_toNat (n % 10) (Nat.mod_lt n (by omega))]
      omega

theorem decimal_inj {m n : Nat} (h : decimal m = decimal n) : m = n := by
  have hd : decVal (decimal m).data = decVal (decimal n).data := by rw [h]
  have hm : (decimal m).data = decAux (m+1) m [] := rfl
  have hn : (decimal n).data = decAux (n+1) n [] := rfl
  rw [hm, hn, decAux_val (m+1) m (by omega), decAux_val (n+1) n (by omega)] at hd
  exact hd

theorem decAux_mem (fuel : Nat) :
    ∀ n acc c, c ∈ decAux fuel n acc → c ∈ acc ∨ ∃ d, d < 10 ∧ c = Char.ofNat (48 + d) := by
  induction fuel with
  | zero => intro n acc c h; exact Or.inl (by simpa [decAux] using h)
  | succ f ih =>
    intro n acc c h
    by_cases h10 : n < 10
    · simp only [decAux, if_pos h10, List.mem_cons] at h
      rcases h with h | h
      · exact Or.inr ⟨n % 10, Nat.mod_lt n (by omega), h⟩
      · exact Or.inl h
    · simp only [decAux, if_neg h10] at h
      rcases ih (n / 10) (Char.ofNat (48 + n % 10) :: acc) c h with h1 | h1
      · rcases List.mem_cons.mp h1 with h2 | h2
        · exact Or.inr ⟨n % 10, Nat.mod_lt n (by omega), h2⟩
        · exact Or.inl h2
      · exact Or.inr h1

theorem digit_ne_underscore : ∀ d : Nat, d < 10 → Char.ofNat (48 + d) ≠ '_' := by decide

theorem decimal_no_underscore (n : Nat) : ∀ c ∈ (decimal n).data, c ≠ '_' := by
  intro c hc
  rcases decAux_mem (n+1) n [] c hc with h | ⟨d, hd, rfl⟩
  · simp at h
  · exact digit_ne_underscore d hd

theorem underscore_split :
    ∀ (xs ys a b : List Char), (∀ c ∈ xs, c ≠ '_') → (∀ c ∈ ys, c ≠ '_') →
      xs ++ '_' :: a = ys ++ '_' :: b → xs = ys := by
  intro xs
  induction xs with
  | nil =>
    intro ys a b _ hy h
    cases ys with
    | nil => rfl
    | cons y ys' =>
      simp only [List.nil_append, List.cons_append, List.cons.injEq] at h
      exact absurd h.1.symm (hy y (by simp))
  | cons x xs' ih =>
    intro ys a b hx hy h
    cases ys with
    | nil =>
      simp only [List.nil_append, List.cons_append, List.cons.injEq] at h
      exact absurd h.1 (hx x (by simp))
    | cons y ys' =>
      simp only [List.cons_append, List.cons.injEq] at h
      have := ih ys' a b (fun c hc => hx c (by simp [hc])) (fun c hc => hy c (by simp [hc])) h.2
      simp [h.1, this]

theorem hygienePfx_append_inj {i j : Nat} {a b : String}
    (h : hygienePfx i ++ a = hygienePfx j ++ b) : i = j := by
  have hd := congrArg String.data h
  simp only [hygienePfx, data_append, List.append_assoc] at hd
  have hbase := List.append_cancel_left hd
  have := underscore_split (decimal i).data (decimal j).data a.data b.data
    (decimal_no_underscore i) (decimal_no_underscore j) hbase
  exact decimal_inj (string_ext this)

/-! ### Shape of renamed local names -/

theorem renameSpecifiers_localNames (pfx : String) :
    ∀ (specs : List ImportSpecifier) (m : IdentMap) (x : String),
      x ∈ ((renameSpecifiers pfx m specs).2.map specifierLocalName) →
      ∃ l, x = pfx ++ l := by
  intro specs
  induction specs with
  | nil => intro m x hx; simp [renameSpecifiers] at hx
  | cons s rest ih =>
    intro m x hx
    cases s with
    | named localName imported =>
      simp only [renameSpecifiers, renameSpecifier, List.map_cons, List.mem_cons] at hx
      rcases hx with hx | hx
      · exact ⟨localName, by simpa [specifierLocalName] using hx⟩
      · exact ih _ x hx
    | defaultSpecifier localName =>
      simp only [renameSpecifiers, renameSpecifier, List.map_cons, List.mem_cons] at hx
      rcases hx with hx | hx
      · exact ⟨localName, by simpa [specifierLocalName] using hx⟩
      · exact ih _ x hx
    | namespaceSpecifier localName =>
      simp only [renameSpecifiers, renameSpecifier, List.map_cons, List.mem_cons] at hx
      rcases hx with hx | hx
      · exact ⟨localName, by simpa [specifierLocalName] using hx⟩
      · exact ih _ x hx

theorem renameImportsItems_localNames (pfx : String) :
    ∀ (items : List ModuleItem) (m : IdentMap) (x : String),
      x ∈ importLocalNames (renameImportsItems pfx m items).2 →
      ∃ l, x = pfx ++ l := by
  intro items
  induction items with
  | nil => intro m x hx; simp [renameImportsItems, importLocalNames] at hx
  | cons item rest ih =>
    intro m x hx
    cases item with
    | stmt s =>
      simp only [renameImportsItems, importLocalNames] at hx
      exact ih _ x hx
    | importDecl d =>
      simp only [renameImportsItems, importLocalNames, List.mem_append] at hx
      rcases hx with hx | hx
      · exact renameSpecifiers_localNames pfx d.specifiers m x hx
      · exact ih _ x hx

/-! ### Identity on function-free subtrees -/

mutual
theorem visitExpr_id (P : Parser) (st : VState) (e : Expr) (hf : fnFreeE e = true) :
    visitExpr P st e = some (st, e) := by
  cases e with
  | lit l => simp [visitExpr]
  | ident s => simp [visitExpr]
  | newExpr c args =>
    simp only [fnFreeE, Bool.and_eq_true] at hf
    simp [visitExpr, visitExpr_id P st c hf.1, visitExprs_id P st args hf.2]
  | fnExpr sp b => simp [fnFreeE] at hf
  | arrow sp b =>
    simp only [fnFreeE] at hf
    simp [visitExpr, visitStmts_id P st b hf]
  | classExpr ms =>
    simp only [fnFreeE] at hf
    simp [visitExpr, visitMethods_id P st ms hf]
  | objectLit ms =>
    simp only [fnFreeE] at hf
    simp [visitExpr, visitMethods_id P st ms hf]

theorem visitExprs_id (P : Parser) (st : VState) (es : List Expr) (hf : fnFreeEs es = true) :
    visitExprs P st es = some (st, es) := by
  cases es with
  | nil => simp [visitExprs]
  | cons e es' =>
    simp only [fnFreeEs, Bool.and_eq_true] at hf
    simp [visitExprs, visitExpr_id P st e hf.1, visitExprs_id P st es' hf.2]

theorem visitStmt_id (P : Parser) (st : VState) (s : Stmt) (hf : fnFreeS s = true) :
    visitStmt P st s = some (st, s) := by
  cases s with
  | expr e => simp only [fnFreeS] at hf; simp [visitStmt, visitExpr_id P st e hf]
  | throwStmt e => simp only [fnFreeS] at hf; simp [visitStmt, visitExpr_id P st e hf]
  | ret e =>
    cases e with
    | none => simp [visitStmt]
    | some e0 => simp only [fnFreeS] at hf; simp [visitStmt, visitExpr_id P st e0 hf]
  | fnDecl sp b => simp [fnFreeS] at hf
  | emptyStmt => simp [visitStmt]

theorem visitStmts_id (P : Parser) (st : VState) (ss : List Stmt) (hf : fnFreeSs ss = true) :
    visitStmts P st ss = some (st, ss) := by
  cases ss with
  | nil => simp [visitStmts]
  | cons s ss' =>
    simp only [fnFreeSs, Bool.and_eq_true] at hf
    simp [visitStmts, visitStmt_id P st s hf.1, visitStmts_id P st ss' hf.2]

theorem visitOptBody_id (P : Parser) (st : VState) (b : Option (List Stmt))
    (hf : fnFreeOB b = true) : visitOptBody P st b = some (st, b) := by
  cases b with
  | none => simp [visitOptBody]
  | some ss => simp only [fnFreeOB] at hf; simp [visitOptBody, visitStmts_id P st ss hf]

theorem visitMethods_id (P : Parser) (st : VState) (ms : List (Option (List Stmt)))
    (hf : fnFreeMs ms = true) : visitMethods P st ms = some (st, ms) := by
  cases ms with
  | nil => simp [visitMethods]
  | cons b bs =>
    simp only [fnFreeMs, Bool.and_eq_true] at hf
    simp [visitMethods, visitOptBody_id P st b hf.1, visitMethods_id P st bs hf.2]
end

/-! ### The visit counter counts scanned valid prompts -/

theorem isEmpty_map {α β : Type} (f : α → β) (l : List α) : (l.map f).isEmpty = l.isEmpty := by
  cases l <;> rfl

theorem prologue_eq_view (ss : List Stmt) : prologue ss = prologueView (ss.map litStrOf) := by
  induction ss with
  | nil => rfl
  | cons s rest ih => cases hls : litStrOf s <;> simp [prologue, prologueView, hls, ih]

theorem scanOkFn_eq_view (b : Fn) : scanOkFn b = scanOkView (b.map (List.map litStrOf)) := by
  cases b with
  | none => rfl
  | some ss =>
    simp only [scanOkFn, scanOkView, Option.map, isEmpty_map, prologue_eq_view]

theorem scanOkFn_congr {b1 b2 : Fn}
    (h : b1.map (List.map litStrOf) = b2.map (List.map litStrOf)) :
    scanOkFn b1 = scanOkFn b2 := by
  rw [scanOkFn_eq_view, scanOkFn_eq_view, h]

theorem install_code_state (P : Parser) (st : VState) (code : String) (identMap : IdentMap)
    (st' : VState) (func' : Fn) (h : install_code P st code identMap = some (st', func')) :
    st' = st := by
  unfold install_code at h
  split at h <;> simp_all

theorem transform_fn_body_visited (P : Parser) (st : VState) (func : Fn) (span : Span)
    (st' : VState) (func' : Fn)
    (h : transform_fn_body P st func span = some (st', func')) :
    st'.visited = st.visited + (if scanOkFn func then 1 else 0) := by
  cases func with
  | none =>
    simp only [transform_fn_body, Option.some.injEq, Prod.mk.injEq] at h
    simp [scanOkFn, ← h.1]
  | some stmts =>
    simp only [transform_fn_body] at h
    by_cases he : stmts.isEmpty
    · rw [if_pos he] at h
      simp only [Option.some.injEq, Prod.mk.injEq] at h
      simp [scanOkFn, he, ← h.1]
    · rw [if_neg he] at h
      cases hscan : scanPrompt (prologue stmts) with
      | none =>
        rw [hscan] at h
        simp only [Option.some.injEq, Prod.mk.injEq] at h
        simp [scanOkFn, he, hscan, ← h.1]
      | some r =>
        rw [hscan] at h
        cases r with
        | error k =>
          simp only [Option.some.injEq, Prod.mk.injEq] at h
          simp [scanOkFn, he, hscan, ← h.1]
        | ok prompt =>
          have hok : scanOkFn (some stmts) = true := by simp [scanOkFn, he, hscan]
          rw [hok, if_pos rfl]
          simp only at h
          cases hlk : lookup3 st.substitutions (decimal span.lo) (decimal span.hi) prompt with
          | none =>
            rw [hlk] at h
            simp only [Option.some.injEq, Prod.mk.injEq] at h
            rw [← h.1]
          | some subst =>
            rw [hlk] at h
            dsimp only at h
            cases hsi : subst.imports with
            | none =>
              rw [hsi] at h
              dsimp only at h
              have := install_code_state P _ subst.code [] st' func' h
              rw [this]
            | some importsSource =>
              rw [hsi] at h
              dsimp only at h
              cases hmk : make_imports_from_source P importsSource (hygienePfx st.visited) with
              | error e =>
                rw [hmk] at h
                dsimp only at h
                simp only [Option.some.injEq, Prod.mk.injEq] at h
                rw [← h.1]
              | ok pr =>
                obtain ⟨newImports, identMap⟩ := pr
                rw [hmk] at h
                dsimp only at h
                have := install_code_state P _ subst.code identMap st' func' h
                rw [this]

theorem litStrOf_expr (e : Expr) : litStrOf (Stmt.expr e) = exprLitStr e := by
  cases e with
  | lit l => cases l <;> rfl
  | ident s => rfl
  | newExpr c args => rfl
  | fnExpr sp b => rfl
  | arrow sp b => rfl
  | classExpr ms => rfl
  | objectLit ms => rfl

mutual
theorem visitExpr_meta (P : Parser) (st : VState) (e : Expr) (st' : VState) (e' : Expr)
    (h : visitExpr P st e = some (st', e')) :
    st'.visited = st.visited + promptCountE e ∧ exprLitStr e' = exprLitStr e := by
  cases e with
  | lit l =>
    simp only [visitExpr, Option.some.injEq, Prod.mk.injEq] at h
    simp [← h.1, ← h.2, promptCountE]
  | ident s =>
    simp only [visitExpr, Option.some.injEq, Prod.mk.injEq] at h
    simp [← h.1, ← h.2, promptCountE]
  | newExpr c args =>
    simp only [visitExpr] at h
    cases h1 : visitExpr P st c with
    | none => rw [h1] at h; dsimp only at h; exact Option.noConfusion h
    | some r1 =>
      obtain ⟨st1, c'⟩ := r1
      rw [h1] at h
      dsimp only at h
      cases h2 : visitExprs P st1 args with
      | none => rw [h2] at h; dsimp only at h; exact Option.noConfusion h
      | some r2 =>
        obtain ⟨st2, args'⟩ := r2
        rw [h2] at h
        dsimp only at h
        simp only [Option.some.injEq, Prod.mk.injEq] at h
        have m1 := visitExpr_meta P st c st1 c' h1
        have m2 := visitExprs_meta P st1 args st2 args' h2
        refine ⟨?_, ?_⟩
        · rw [← h.1, m2, m1.1]; simp only [promptCountE]; omega
        · rw [← h.2]; rfl
  | fnExpr sp b =>
    simp only [visitExpr] at h
    cases h1 : visitOptBody P st b with
    | none => rw [h1] at h; dsimp only at h; exact Option.noConfusion h
    | some r1 =>
      obtain ⟨st1, b1⟩ := r1
      rw [h1] at h
      dsimp only at h
      cases h2 : transform_fn_body P st1 b1 sp with
      | none => rw [h2] at h; dsimp only at h; exact Option.noConfusion h
      | some r2 =>
        obtain ⟨st2, b2⟩ := r2
        rw [h2] at h
        dsimp only at h
        simp only [Option.some.injEq, Prod.mk.injEq] at h
        have m1 := visitOptBody_meta P st b st1 b1 h1
        have m2 := transform_fn_body_visited P st1 b1 sp st2 b2 h2
        have hso : scanOkFn b1 = scanOkFn b := scanOkFn_congr m1.2
        refine ⟨?_, ?_⟩
        · rw [← h.1, m2, hso, m1.1]; simp only [promptCountE]; omega
        · rw [← h.2]; rfl
  | arrow sp b =>
    simp only [visitExpr] at h
    cases h1 : visitStmts P st b with
    | none => rw [h1] at h; dsimp only at h; exact Option.noConfusion h
    | some r1 =>
      obtain ⟨st1, b1⟩ := r1
      rw [h1] at h
      dsimp only at h
      simp only [Option.some.injEq, Prod.mk.injEq] at h
      have m1 := visitStmts_meta P st b st1 b1 h1
      refine ⟨?_, ?_⟩
      · rw [← h.1, m1.1]; simp only [promptCountE]
      · rw [← h.2]; rfl
  | classExpr ms =>
    simp only [visitExpr] at h
    cases h1 : visitMethods P st ms with
    | none => rw [h1] at h; dsimp only at h; exact Option.noConfusion h
    | some r1 =>
      obtain ⟨st1, ms1⟩ := r1
      rw [h1] at h
      dsimp only at h
      simp only [Option.some.injEq, Prod.mk.injEq] at h
      have m1 := visitMethods_meta P st ms st1 ms1 h1
      refine ⟨?_, ?_⟩
      · rw [← h.1, m1]; simp only [promptCountE]
      · rw [← h.2]; rfl
  | objectLit ms =>
    simp only [visitExpr] at h
    cases h1 : visitMethods P st ms with
    | none => rw [h1] at h; dsimp only at h; exact Option.noConfusion h
    | some r1 =>
      obtain ⟨st1, ms1⟩ := r1
      rw [h1] at h
      dsimp only at h
      simp only [Option.some.injEq, Prod.mk.injEq] at h
      have m1 := visitMethods_meta P st ms st1 ms1 h1
      refine ⟨?_, ?_⟩
      · rw [← h.1, m1]; simp only [promptCountE]
      · rw [← h.2]; rfl

theorem visitExprs_meta (P : Parser) (st : VState) (es : List Expr) (st' : VState)
    (es' : List Expr) (h : visitExprs P st es = some (st', es')) :
    st'.visited = st.visited + promptCountEs es := by
  cases es with
  | nil =>
    simp only [visitExprs, Option.some.injEq, Prod.mk.injEq] at h
    simp [← h.1, promptCountEs]
  | cons e es0 =>
    simp only [visitExprs] at h
    cases h1 : visitExpr P st e with
    | none => rw [h1] at h; dsimp only at h; exact Option.noConfusion h
    | some r1 =>
      obtain ⟨st1, e'⟩ := r1
      rw [h1] at h
      dsimp only at h
      cases h2 : visitExprs P st1 es0 with
      | none => rw [h2] at h; dsimp only at h; exact Option.noConfusion h
      | some r2 =>
        obtain ⟨st2, es0'⟩ := r2
        rw [h2] at h
        dsimp only at h
        simp only [Option.some.injEq, Prod.mk.injEq] at h
        have m1 := visitExpr_meta P st e st1 e' h1
        have m2 := visitExprs_meta P st1 es0 st2 es0' h2
        rw [← h.1, m2, m1.1]; simp only [promptCountEs]; omega

theorem visitStmt_meta (P : Parser) (st : VState) (s : Stmt) (st' : VState) (s' : Stmt)
    (h : visitStmt P st s = some (st', s')) :
    st'.visited = st.visited + promptCountS s ∧ litStrOf s' = litStrOf s := by
  cases s with
  | expr e =>
    simp only [visitStmt] at h
    cases h1 : visitExpr P st e with
    | none => rw [h1] at h; dsimp only at h; exact Option.noConfusion h
    | some r1 =>
      obtain ⟨st1, e'⟩ := r1
      rw [h1] at h
      dsimp only at h
      simp only [Option.some.injEq, Prod.mk.injEq] at h
      have m1 := visitExpr_meta P st e st1 e' h1
      refine ⟨by rw [← h.1, m1.1]; simp only [promptCountS], ?_⟩
      rw [← h.2, litStrOf_expr, litStrOf_expr, m1.2]
  | throwStmt e =>
    simp only [visitStmt] at h
    cases h1 : visitExpr P st e with
    | none => rw [h1] at h; dsimp only at h; exact Option.noConfusion h
    | some r1 =>
      obtain ⟨st1, e'⟩ := r1
      rw [h1] at h
      dsimp only at h
      simp only [Option.some.injEq, Prod.mk.injEq] at h
      have m1 := visitExpr_meta P st e st1 e' h1
      exact ⟨by rw [← h.1, m1.1]; simp only [promptCountS], by rw [← h.2]; rfl⟩
  | ret e =>
    cases e with
    | none =>
      simp only [visitStmt, Option.some.injEq, Prod.mk.injEq] at h
      simp [← h.1, ← h.2, promptCountS]
    | some e0 =>
      simp only [visitStmt] at h
      cases h1 : visitExpr P st e0 with
      | none => rw [h1] at h; dsimp only at h; exact Option.noConfusion h
      | some r1 =>
        obtain ⟨st1, e'⟩ := r1
        rw [h1] at h
        dsimp only at h
        simp only [Option.some.injEq, Prod.mk.injEq] at h
        have m1 := visitExpr_meta P st e0 st1 e' h1
        exact ⟨by rw [← h.1, m1.1]; simp only [promptCountS], by rw [← h.2]; rfl⟩
  | fnDecl sp b =>
    simp only [visitStmt] at h
    cases h1 : visitOptBody P st b with
    | none => rw [h1] at h; dsimp only at h; exact Option.noConfusion h
    | some r1 =>
      obtain ⟨st1, b1⟩ := r1
      rw [h1] at h
      dsimp only at h
      cases h2 : transform_fn_body P st1 b1 sp with
      | none => rw [h2] at h; dsimp only at h; exact Option.noConfusion h
      | some r2 =>
        obtain ⟨st2, b2⟩ := r2
        rw [h2] at h
        dsimp only at h
        simp only [Option.some.injEq, Prod.mk.injEq] at h
        have m1 := visitOptBody_meta P st b st1 b1 h1
        have m2 := transform_fn_body_visited P st1 b1 sp st2 b2 h2
        have hso : scanOkFn b1 = scanOkFn b := scanOkFn_congr m1.2
        refine ⟨?_, by rw [← h.2]; rfl⟩
        rw [← h.1, m2, hso, m1.1]; simp only [promptCountS]; omega
  | emptyStmt =>
    simp only [visitStmt, Option.some.injEq, Prod.mk.injEq] at h
    simp [← h.1, ← h.2, promptCountS]

theorem visitStmts_meta (P : Parser) (st : VState) (ss : List Stmt) (st' : VState)
    (ss' : List Stmt) (h : visitStmts P st ss = some (st', ss')) :
    st'.visited = st.visited + promptCountSs ss ∧
      List.map litStrOf ss' = List.map litStrOf ss := by
  cases ss with
  | nil =>
    simp only [visitStmts, Option.some.injEq, Prod.mk.injEq] at h
    simp [← h.1, ← h.2, promptCountSs]
  | cons s ss0 =>
    simp only [visitStmts] at h
    cases h1 : visitStmt P st s with
    | none => rw [h1] at h; dsimp only at h; exact Option.noConfusion h
    | some r1 =>
      obtain ⟨st1, s'⟩ := r1
      rw [h1] at h
      dsimp only at h
      cases h2 : visitStmts P st1 ss0 with
      | none => rw [h2] at h; dsimp only at h; exact Option.noConfusion h
      | some r2 =>
        obtain ⟨st2, ss0'⟩ := r2
        rw [h2] at h
        dsimp only at h
        simp only [Option.some.injEq, Prod.mk.injEq] at h
        have m1 := visitStmt_meta P st s st1 s' h1
        have m2 := visitStmts_meta P st1 ss0 st2 ss0' h2
        refine ⟨by rw [← h.1, m2.1, m1.1]; simp only [promptCountSs]; omega, ?_⟩
        rw [← h.2]
        simp [m1.2, m2.2]

theorem visitOptBody_meta (P : Parser) (st : VState) (b : Option (List Stmt)) (st' : VState)
    (b' : Option (List Stmt)) (h : visitOptBody P st b = some (st', b')) :
    st'.visited = st.visited + promptCountOB b ∧
      b'.map (List.map litStrOf) = b.map (List.map litStrOf) := by
  cases b with
  | none =>
    simp only [visitOptBody, Option.some.injEq, Prod.mk.injEq] at h
    simp [← h.1, ← h.2, promptCountOB]
  | some ss =>
    simp only [visitOptBody] at h
    cases h1 : visitStmts P st ss with
    | none => rw [h1] at h; dsimp only at h; exact Option.noConfusion h
    | some r1 =>
      obtain ⟨st1, ss'⟩ := r1
      rw [h1] at h
      dsimp only at h
      simp only [Option.some.injEq, Prod.mk.injEq] at h
      have m1 := visitStmts_meta P st ss st1 ss' h1
      refine ⟨by rw [← h.1, m1.1]; simp only [promptCountOB], ?_⟩
      rw [← h.2]
      simp [m1.2]

theorem visitMethods_meta (P : Parser) (st : VState) (ms : List (Option (List Stmt)))
    (st' : VState) (ms' : List (Option (List Stmt)))
    (h : visitMethods P st ms = some (st', ms')) :
    st'.visited = st.visited + promptCountMs ms := by
  cases ms with
  | nil =>
    simp only [visitMethods, Option.some.injEq, Prod.mk.injEq] at h
    simp [← h.1, promptCountMs]
  | cons b bs =>
    simp only [visitMethods] at h
    cases h1 : visitOptBody P st b with
    | none => rw [h1] at h; dsimp only at h; exact Option.noConfusion h
    | some r1 =>
      obtain ⟨st1, b'⟩ := r1
      rw [h1] at h
      dsimp only at h
      cases h2 : visitMethods P st1 bs with
      | none => rw [h2] at h; dsimp only at h; exact Option.noConfusion h
      | some r2 =>
        obtain ⟨st2, bs'⟩ := r2
        rw [h2] at h
        dsimp only at h
        simp only [Option.some.injEq, Prod.mk.injEq] at h
        have m1 := visitOptBody_meta P st b st1 b' h1
        have m2 := visitMethods_meta P st1 bs st2 bs' h2
        rw [← h.1, m2, m1.1]; simp only [promptCountMs]; omega
end

theorem visitModuleItems_meta (P : Parser) :
    ∀ (items : List ModuleItem) (st st' : VState) (items' : List ModuleItem),
      visitModuleItems P st items = some (st', items') →
      st'.visited = st.visited + promptCountItems items ∧
        List.map itemLitStr items' = List.map itemLitStr items := by
  intro items
  induction items with
  | nil =>
    intro st st' items' h
    simp only [visitModuleItems, Option.some.injEq, Prod.mk.injEq] at h
    simp [← h.1, ← h.2, promptCountItems]
  | cons item rest ih =>
    intro st st' items' h
    cases item with
    | stmt s =>
      simp only [visitModuleItems] at h
      cases h1 : visitStmt P st s with
      | none => rw [h1] at h; dsimp only at h; exact Option.noConfusion h
      | some r1 =>
        obtain ⟨st1, s'⟩ := r1
        rw [h1] at h
        dsimp only at h
        cases h2 : visitModuleItems P st1 rest with
        | none => rw [h2] at h; dsimp only at h; exact Option.noConfusion h
        | some r2 =>
          obtain ⟨st2, rest'⟩ := r2
          rw [h2] at h
          dsimp only at h
          simp only [Option.some.injEq, Prod.mk.injEq] at h
          have m1 := visitStmt_meta P st s st1 s' h1
          have m2 := ih st1 st2 rest' h2
          refine ⟨by rw [← h.1, m2.1, m1.1]; simp only [promptCountItems]; omega, ?_⟩
          rw [← h.2]
          simp only [List.map_cons, itemLitStr, m1.2, m2.2]
    | importDecl d =>
      simp only [visitModuleItems] at h
      cases h1 : visitModuleItems P st rest with
      | none => rw [h1] at h; dsimp only at h; exact Option.noConfusion h
      | some r1 =>
        obtain ⟨st1, rest'⟩ := r1
        rw [h1] at h
        dsimp only at h
        simp only [Option.some.injEq, Prod.mk.injEq] at h
        have m1 := ih st st1 rest' h1
        refine ⟨by rw [← h.1, m1.1]; simp only [promptCountItems], ?_⟩
        rw [← h.2]
        simp only [List.map_cons, itemLitStr, m1.2]

theorem isClientDirective_view (item : ModuleItem) :
    isClientDirective item = decide ((itemLitStr item).getD "" = "use client") := by
  cases item with
  | importDecl d => rfl
  | stmt s =>
    cases s with
    | expr e =>
      cases e with
      | lit l => cases l <;> rfl
      | ident s => rfl
      | newExpr c args => rfl
      | fnExpr sp b => rfl
      | arrow sp b => rfl
      | classExpr ms => rfl
      | objectLit ms => rfl
    | throwStmt e => rfl
    | ret e => cases e <;> rfl
    | fnDecl sp b => rfl
    | emptyStmt => rfl

theorem hasClientDirective_congr {items1 items2 : List ModuleItem}
    (h : List.map itemLitStr items1 = List.map itemLitStr items2) :
    hasClientDirective items1 = hasClientDirective items2 := by
  unfold hasClientDirective
  induction items1 generalizing items2 with
  | nil =>
    cases items2 with
    | nil => rfl
    | cons _ _ => simp at h
  | cons i rest ih =>
    cases items2 with
    | nil => simp at h
    | cons i2 rest2 =>
      simp only [List.map_cons, List.cons.injEq] at h
      simp only [List.any_cons]
      rw [isClientDirective_view, isClientDirective_view, h.1, ih h.2]

theorem visit_mut_module_characterization (P : Parser) (store : SubstitutionMap) (m : Module) :
    SubstitutionVisitor.visit_mut_module P (initState store) m =
      (visitModuleItems P (initState store) m.body).map
        (fun r => (r.1,
          ⟨(if 0 < promptCountItems m.body ∧ hasClientDirective m.body = false
            then [clientDirectiveItem] else []) ++ r.2 ++ r.1.imports⟩)) := by
  cases hv : visitModuleItems P (initState store) m.body with
  | none => simp [SubstitutionVisitor.visit_mut_module, hv]
  | some r =>
    obtain ⟨st1, body1⟩ := r
    have m1 := visitModuleItems_meta P m.body (initState store) st1 body1 hv
    have hvis : st1.visited = promptCountItems m.body := by
      have h1 := m1.1
      simpa [initState] using h1
    have hdir : hasClientDirective body1 = hasClientDirective m.body :=
      hasClientDirective_congr m1.2
    simp only [SubstitutionVisitor.visit_mut_module, hv, Option.map]
    refine congrArg some (congrArg (Prod.mk st1) (congrArg Module.mk ?_))
    simp only [finalizeModuleBody]
    rw [hvis, hdir]
    by_cases hp : 0 < promptCountItems m.body
    · cases hc : hasClientDirective m.body with
      | true => simp [hp, hc]
      | false => simp [hp, hc]
    · simp [hp, Nat.not_lt.mp hp]

/-! ### FixImportsVisitor characterization -/

theorem collectReact_eq_any :
    ∀ (items : List ModuleItem) (flag : Bool),
      collectReact flag items = (flag || items.any itemHasReactBinding) := by
  intro items
  induction items with
  | nil => intro flag; simp [collectReact]
  | cons item rest ih =>
    intro flag
    cases item with
    | stmt s => simp [collectReact, ih, itemHasReactBinding]
    | importDecl d =>
      simp only [collectReact, ih, List.any_cons, itemHasReactBinding]
      cases flag <;> cases hd : d.specifiers.any (fun s => specifierLocalName s == "React") <;>
        simp [hd]

theorem hasReactDefault_implies_binding {items : List ModuleItem}
    (h : hasReactDefaultImport items = true) : items.any itemHasReactBinding = true := by
  simp only [hasReactDefaultImport, List.any_eq_true] at h
  obtain ⟨item, hitem, hspec⟩ := h
  simp only [List.any_eq_true]
  refine ⟨item, hitem, ?_⟩
  cases item with
  | stmt s => simp at hspec
  | importDecl d =>
    simp only [List.any_eq_true] at hspec
    obtain ⟨spec, hmem, hdef⟩ := hspec
    cases spec with
    | named l i => simp at hdef
    | namespaceSpecifier l => simp at hdef
    | defaultSpecifier l =>
      simp only [itemHasReactBinding, List.any_eq_true]
      exact ⟨ImportSpecifier.defaultSpecifier l, hmem, by simpa [specifierLocalName] using hdef⟩

/-! ### Pointwise form of the import renamer -/

theorem renameSpecifier_snd (pfx : String) (m : IdentMap) (s : ImportSpecifier) :
    (renameSpecifier pfx m s).2 = renameSpecPure pfx s := by
  cases s <;> rfl

theorem renameSpecifiers_eq_map (pfx : String) :
    ∀ (specs : List ImportSpecifier) (m : IdentMap),
      (renameSpecifiers pfx m specs).2 = specs.map (renameSpecPure pfx) := by
  intro specs
  induction specs with
  | nil => intro m; rfl
  | cons s rest ih =>
    intro m
    cases s <;> simp [renameSpecifiers, renameSpecifier, renameSpecPure, ih]

/-! ### The claims -/

theorem scanPrompt_none : ∀ (l : List String),
    (∀ s ∈ l, startsWithUsePrompt s = false) → scanPrompt l = none := by
  intro l
  induction l with
  | nil => intro _; rfl
  | cons s rest ih =>
    intro h
    have hs := h s (by simp)
    simp only [scanPrompt, hs]
    exact ih (fun x hx => h x (by simp [hx]))

/-- C1 (amended): for every named import specifier the renamer prefixes the
local binding name and sets the external exported name to the original
*local* name.  When the import was unaliased this coincides with keeping
the external name; for an aliased import the original external name is
replaced. -/
theorem c1_named_import_external_name (pfx : String) (m : IdentMap)
    (specs : List ImportSpecifier) (i : Nat) (localName : String) (imported : Option String)
    (h : specs[i]? = some (ImportSpecifier.named localName imported)) :
    ((renameSpecifiers pfx m specs).2)[i]? =
      some (ImportSpecifier.named (pfx ++ localName) (some localName)) := by
  rw [renameSpecifiers_eq_map]
  simp [List.getElem?_map, h, renameSpecPure]

theorem c1_witness :
    ((renameSpecifiers "P_" [] [ImportSpecifier.named "a" none]).2)[0]? =
      some (ImportSpecifier.named ("P_" ++ "a") (some "a")) :=
  c1_named_import_external_name "P_" [] [ImportSpecifier.named "a" none] 0 "a" none rfl

/-- C1 counterexample: an already-aliased named import `ext as loc` is
rewritten with external name `loc`, not the original external name `ext`. -/
theorem c1_counterexample :
    (renameSpecifiers "P_" [] [ImportSpecifier.named "loc" (some "ext")]).2 =
      [ImportSpecifier.named "P_loc" (some "loc")] ∧
    ImportSpecifier.named "P_loc" (some "loc") ≠
      ImportSpecifier.named "P_loc" (some "ext") :=
  ⟨rfl, by decide⟩

/-- C2 (amended): at module exit the leading directive is inserted at index
0 exactly when at least one valid non-empty prompt directive was scanned in
the module — whether or not its store lookup succeeded — and no directive
literal is already present; an existing directive is never duplicated, and
the accumulated imports are appended. -/
theorem c2_directive_insertion (P : Parser) (store : SubstitutionMap) (m : Module) :
    SubstitutionVisitor.visit_mut_module P (initState store) m =
      (visitModuleItems P (initState store) m.body).map
        (fun r => (r.1,
          ⟨(if 0 < promptCountItems m.body ∧ hasClientDirective m.body = false
            then [clientDirectiveItem] else []) ++ r.2 ++ r.1.imports⟩)) := by
  cases hv : visitModuleItems P (initState store) m.body with
  | none => simp [SubstitutionVisitor.visit_mut_module, hv]
  | some r =>
    obtain ⟨st1, body1⟩ := r
    have m1 := visitModuleItems_meta P m.body (initState store) st1 body1 hv
    have hvis : st1.visited = promptCountItems m.body := by
      have h1 := m1.1
      simpa [initState] using h1
    have hdir : hasClientDirective body1 = hasClientDirective m.body :=
      hasClientDirective_congr m1.2
    simp only [SubstitutionVisitor.visit_mut_module, hv, Option.map]
    refine congrArg some (congrArg (Prod.mk st1) (congrArg Module.mk ?_))
    simp only [finalizeModuleBody]
    rw [hvis, hdir]
    by_cases hp : 0 < promptCountItems m.body
    · cases hc : hasClientDirective m.body with
      | true => simp [hp, hc]
      | false => simp [hp, hc]
    · simp [hp, Nat.not_lt.mp hp]

/-- C2 counterexample: with an empty store no substitution can succeed, yet
a module containing one valid prompt directive still receives the inserted
leading directive at index 0. -/
theorem c2_counterexample :
    SubstitutionVisitor.visit_mut_module trivialParser (initState [])
        ⟨[ModuleItem.stmt (Stmt.fnDecl ⟨0,5⟩ (some [dirStmtHi]))]⟩ =
      some (⟨[], [], 1⟩,
        ⟨[clientDirectiveItem, ModuleItem.stmt (Stmt.fnDecl ⟨0,5⟩ (some [dirStmtHi]))]⟩) := rfl

/-- C3 (amended): the default framework import is appended exactly when no
specifier of any import kind (default, named, or namespace) binds the local
name `React`; the rule is not restricted to default imports. -/
theorem c3_react_import_condition (m : Module) :
    fixImports m =
      if m.body.any itemHasReactBinding then m else ⟨m.body ++ [reactImport]⟩ := by
  unfold fixImports
  rw [collectReact_eq_any m.body false]
  simp

/-- C3 counterexample: a module whose only `React` binding is a namespace
style import has no default `React` import, yet the fix does not add one. -/
theorem c3_counterexample :
    hasReactDefaultImport [ModuleItem.importDecl ⟨[.namespaceSpecifier "React"], "react"⟩]
      = false ∧
    fixImports ⟨[ModuleItem.importDecl ⟨[.namespaceSpecifier "React"], "react"⟩]⟩ =
      ⟨[ModuleItem.importDecl ⟨[.namespaceSpecifier "React"], "react"⟩]⟩ ∧
    hasReactDefaultImport
      (fixImports ⟨[ModuleItem.importDecl ⟨[.namespaceSpecifier "React"], "react"⟩]⟩).body
      = false :=
  ⟨rfl, rfl, rfl⟩

/-- C4: two Hygiene Renamer calls whose prefixes derive from distinct
visit-counter values produce disjoint sets of renamed local identifiers,
even when the original local names coincide. -/
theorem c4_distinct_prefixes_disjoint (i j : Nat) (items1 items2 : List ModuleItem)
    (x : String) (hij : i ≠ j) (hx : x ∈ renamedLocalNames i items1) :
    x ∉ renamedLocalNames j items2 := by
  intro hx2
  obtain ⟨a, ha⟩ := renameImportsItems_localNames (hygienePfx i) items1 [] x hx
  obtain ⟨b, hb⟩ := renameImportsItems_localNames (hygienePfx j) items2 [] x hx2
  have hab : hygienePfx i ++ a = hygienePfx j ++ b := by rw [← ha, ← hb]
  exact hij (hygienePfx_append_inj hab)

theorem c4_witness :
    (hygienePfx 0 ++ "bar") ∉
      renamedLocalNames 1 [ModuleItem.importDecl ⟨[.named "bar" none], "m"⟩] :=
  c4_distinct_prefixes_disjoint 0 1
    [ModuleItem.importDecl ⟨[.named "bar" none], "m"⟩]
    [ModuleItem.importDecl ⟨[.named "bar" none], "m"⟩]
    (hygienePfx 0 ++ "bar") (by decide)
    (by simp [renamedLocalNames, renameImportsItems, renameSpecifiers, renameSpecifier,
      importLocalNames, specifierLocalName])

/-- C5: a function whose first matching prologue literal has the prefix but
an empty (whitespace-only) remainder gets its body replaced by a block with
exactly one statement, a throw of a newly constructed `Error`, for every
parser and every store; the Empty outcome is never the untouched NotFound
outcome. -/
theorem c5_empty_prompt_throws (P : Parser) (st : VState) (span : Span) (stmts : List Stmt)
    (hscan : scanPrompt (prologue stmts) = some (Except.error 1)) :
    transform_fn_body P st (some stmts) span =
      some (st, some [Stmt.throwStmt (Expr.newExpr (Expr.ident "Error")
        [Expr.lit (Lit.str "🤖 Incomplete prompt!")])]) ∧
    [Stmt.throwStmt (Expr.newExpr (Expr.ident "Error")
        [Expr.lit (Lit.str "🤖 Incomplete prompt!")])].length = 1 := by
  have hne : stmts.isEmpty = false := by
    cases stmts with
    | nil => simp [prologue, scanPrompt] at hscan
    | cons _ _ => rfl
  exact ⟨by simp [transform_fn_body, hne, hscan, make_prompt_error_body], rfl⟩

theorem c5_witness :
    transform_fn_body trivialParser (initState []) (some [emptyDirStmt]) ⟨0,1⟩ =
      some (initState [], some [Stmt.throwStmt (Expr.newExpr (Expr.ident "Error")
        [Expr.lit (Lit.str "🤖 Incomplete prompt!")])]) :=
  (c5_empty_prompt_throws trivialParser (initState []) ⟨0,1⟩ [emptyDirStmt] (by rfl)).1

/-- C6: a function whose prologue contains no literal starting with the
prefix (including functions with an empty or absent body) is left
unchanged by the transform. -/
theorem c6_no_directive_identity (P : Parser) (st : VState) (span : Span) (func : Fn)
    (h : ∀ s ∈ prologue (func.getD []), startsWithUsePrompt s = false) :
    transform_fn_body P st func span = some (st, func) := by
  cases func with
  | none => rfl
  | some stmts =>
    have hsc : scanPrompt (prologue stmts) = none := scanPrompt_none _ (by simpa using h)
    by_cases he : stmts.isEmpty
    · simp [transform_fn_body, he]
    · simp [transform_fn_body, he, hsc]

theorem c6_witness :
    transform_fn_body trivialParser (initState [])
        (some [Stmt.expr (Expr.lit (Lit.str "use strict"))]) ⟨0,1⟩ =
      some (initState [], some [Stmt.expr (Expr.lit (Lit.str "use strict"))]) :=
  c6_no_directive_identity trivialParser (initState []) ⟨0,1⟩
    (some [Stmt.expr (Expr.lit (Lit.str "use strict"))]) (by decide)

/-- C7: an absent cache file is treated as the empty store and construction
proceeds; a present but undecodable blob aborts the whole pass. -/
theorem c7_store_construction (decode : JsonDecoder)
    (hempty : decode "\x7b\x7d" = some []) :
    SubstitutionVisitor.new decode none = some (initState []) ∧
    ∀ s, decode s = none → SubstitutionVisitor.new decode (some s) = none := by
  refine ⟨?_, ?_⟩
  · simp [SubstitutionVisitor.new, hempty]
  · intro s hs
    simp [SubstitutionVisitor.new, hs]

theorem c7_witness :
    SubstitutionVisitor.new decodeEmptyOnly none = some (initState []) ∧
    SubstitutionVisitor.new decodeEmptyOnly (some "oops") = none := by
  have h := c7_store_construction decodeEmptyOnly (by rfl)
  exact ⟨h.1, h.2 "oops" (by rfl)⟩

/-- C8: finalizing a module that already carries the leading directive and a
default `React` import (with an empty import accumulator) changes nothing:
neither a second directive nor a second default import appears. -/
theorem c8_finalization_idempotent (v : Nat) (m : Module)
    (hdir : hasClientDirective m.body = true)
    (hreact : hasReactDefaultImport m.body = true) :
    fixImports ⟨finalizeModuleBody v [] m.body⟩ = m := by
  have hb : finalizeModuleBody v [] m.body = m.body := by
    simp [finalizeModuleBody, hdir]
  rw [hb]
  have hany := hasReactDefault_implies_binding hreact
  show fixImports ⟨m.body⟩ = m
  unfold fixImports
  rw [collectReact_eq_any]
  simp [hany]

theorem c8_witness :
    fixImports ⟨finalizeModuleBody 3 [] [clientDirectiveItem, reactImport]⟩ =
      ⟨[clientDirectiveItem, reactImport]⟩ :=
  c8_finalization_idempotent 3 ⟨[clientDirectiveItem, reactImport]⟩ (by rfl) (by rfl)

/-- C9: the transform is deterministic: over equal program trees and equal
cache blobs, two runs produce equal output trees (the embedding has no
other inputs). -/
theorem c9_deterministic (P : Parser) (decode : JsonDecoder)
    (file1 file2 : Option String) (m1 m2 : Module)
    (hf : file1 = file2) (hm : m1 = m2) :
    process_transform P decode file1 m1 = process_transform P decode file2 m2 := by
  rw [hf, hm]

theorem c9_witness :
    process_transform trivialParser decodeEmptyOnly none ⟨[]⟩ =
      process_transform trivialParser decodeEmptyOnly none ⟨[]⟩ :=
  c9_deterministic trivialParser decodeEmptyOnly none none ⟨[]⟩ ⟨[]⟩ rfl rfl

/-- C10 (amended): nodes other than function declarations and function
expressions are never themselves transformed: an arrow function, a class
method, or an object method whose body contains no nested function node is
left entirely unchanged, even when its body begins with a valid prompt
directive that has a matching store entry. -/
theorem c10_other_nodes_untouched (P : Parser) (st : VState) (sp : Span)
    (body : List Stmt) (prompt : String) (subst : Substitution)
    (hf : fnFreeSs body = true)
    (_hscan : scanPrompt (prologue body) = some (Except.ok prompt))
    (_hentry : lookup3 st.substitutions (decimal sp.lo) (decimal sp.hi) prompt = some subst) :
    visitExpr P st (Expr.arrow sp body) = some (st, Expr.arrow sp body) ∧
    visitExpr P st (Expr.classExpr [some body]) = some (st, Expr.classExpr [some body]) ∧
    visitExpr P st (Expr.objectLit [some body]) = some (st, Expr.objectLit [some body]) := by
  have hb := visitStmts_id P st body hf
  refine ⟨?_, ?_, ?_⟩
  · simp [visitExpr, hb]
  · simp [visitExpr, visitMethods, visitOptBody, hb]
  · simp [visitExpr, visitMethods, visitOptBody, hb]

theorem c10_witness :
    visitExpr trivialParser (initState cexStore) (Expr.arrow ⟨3,7⟩ [dirStmtHi]) =
      some (initState cexStore, Expr.arrow ⟨3,7⟩ [dirStmtHi]) ∧
    visitExpr trivialParser (initState cexStore) (Expr.classExpr [some [dirStmtHi]]) =
      some (initState cexStore, Expr.classExpr [some [dirStmtHi]]) ∧
    visitExpr trivialParser (initState cexStore) (Expr.objectLit [some [dirStmtHi]]) =
      some (initState cexStore, Expr.objectLit [some [dirStmtHi]]) :=
  c10_other_nodes_untouched trivialParser (initState cexStore) ⟨3,7⟩ [dirStmtHi] "hi"
    ⟨"x", none⟩ (by rfl) (by rfl) (by rfl)

/-- C10 counterexample: an arrow function whose body begins with a valid
matched directive but also contains a nested function expression is changed
by the traversal — the nested function body is rewritten, so the arrow node
is not left unchanged as literally claimed. -/
theorem c10_counterexample :
    lookup3 cexStore (decimal 3) (decimal 7) "hi" = some ⟨"x", none⟩ ∧
    visitExpr trivialParser (initState cexStore)
        (Expr.arrow ⟨3,7⟩ [dirStmtHi, Stmt.expr (Expr.fnExpr ⟨1,2⟩ (some [emptyDirStmt]))]) =
      some (initState cexStore,
        Expr.arrow ⟨3,7⟩ [dirStmtHi, Stmt.expr (Expr.fnExpr ⟨1,2⟩
          (make_prompt_error_body "🤖 Incomplete prompt!"))]) ∧
    make_prompt_error_body "🤖 Incomplete prompt!" ≠ some [emptyDirStmt] := by
  refine ⟨rfl, rfl, ?_⟩
  intro hcontra
  simp only [make_prompt_error_body, emptyDirStmt, Option.some.injEq, List.cons.injEq] at hcontra
  exact Stmt.noConfusion hcontra.1

end UsePrompt
